import Mathlib

/-!
Verification of the docutils HTML5 writer (`src/__init__.py`) against its
natural-language specification.

The writer builds an lxml element tree.  We embed lxml elements shallowly:
an element has a tag, an attribute mapping, optional leading text (`.text`),
optional trailing text (`.tail`, the text that follows the element inside
its parent) and an ordered list of children.  lxml's `append` moves an
element together with its `tail`; lxml's `remove` drops the removed
element's `tail` as well.
-/

inductive Elem : Type where
  | mk (tag : String) (attrs : List (String × String)) (text : Option String)
       (tail : Option String) (children : List Elem)

def Elem.tag : Elem → String
  | .mk t _ _ _ _ => t

def Elem.attrs : Elem → List (String × String)
  | .mk _ a _ _ _ => a

def Elem.text : Elem → Option String
  | .mk _ _ x _ _ => x

def Elem.tail : Elem → Option String
  | .mk _ _ _ tl _ => tl

def Elem.children : Elem → List Elem
  | .mk _ _ _ _ cs => cs

/-- Embedding of `add_text(node, text)` (src lines 99-107): if the node has
children, append the string to the last child's `tail` (treating `None` as
the empty string); otherwise append it to the node's own `text`. -/
def add_text (node : Elem) (s : String) : Elem :=
  match node with
  | .mk t a x tl cs =>
    match cs.getLast? with
    | none => .mk t a (some (x.getD "" ++ s)) tl cs
    | some lastc =>
      .mk t a x tl (cs.dropLast ++ [.mk lastc.tag lastc.attrs lastc.text
        (some (lastc.tail.getD "" ++ s)) lastc.children])

/-!
The normalization pass `compact(html_tree)` (src lines 416-437) walks
`html_tree.xpath("//p")` in document order and, for each `p` whose current
parent has exactly one child and `parent.text == None`, moves `p.text` to
the parent, moves each child of `p` (with its tail — lxml `append` moves the
tail, and lxml's child iterator fetches the next sibling before yielding, so
moving the current child out does not skip any) onto the parent, and removes
`p` (dropping `p`'s own tail, as lxml `remove` does).

Because each collapse mutates only the pair (parent of `p`, `p`) and the
snapshot list is in pre-order, the loop is equivalent to the following
recursion: at each element, while its text is `None` and it has a single
child tagged `p`, absorb that child; then recurse into the (final) children.
The writer's trees are rooted at `html`, so the root itself is never a
collapse candidate.
-/
def compact (e : Elem) : Elem :=
  match e with
  | .mk tag attrs none tail [c] =>
    if c.tag = "p" then
      compact (.mk tag attrs c.text tail c.children)
    else
      .mk tag attrs none tail [compact c]
  | .mk tag attrs text tail cs =>
    .mk tag attrs text tail (cs.attach.map fun x => compact x.1)
termination_by sizeOf e
decreasing_by
  · rcases c with ⟨ct, ca, cx, ctl, cc⟩
    simp [Elem.text, Elem.children]
    omega
  · simp
    omega
  · have hx := List.sizeOf_lt_of_mem x.2
    simp
    omega

theorem compact_absorb (t : String) (a : List (String × String)) (tl : Option String)
    (c : Elem) (h : c.tag = "p") :
    compact (Elem.mk t a none tl [c]) = compact (Elem.mk t a c.text tl c.children) := by
  rw [compact]
  simp [h]

theorem compact_single (t : String) (a : List (String × String)) (tl : Option String)
    (c : Elem) (h : ¬ c.tag = "p") :
    compact (Elem.mk t a none tl [c]) = Elem.mk t a none tl [compact c] := by
  rw [compact]
  simp [h]

theorem compact_other (t : String) (a : List (String × String)) (x : Option String)
    (tl : Option String) (cs : List Elem) (h : ¬ (x = none ∧ ∃ c, cs = [c])) :
    compact (Elem.mk t a x tl cs) = Elem.mk t a x tl (cs.map compact) := by
  rw [compact]
  · simp [List.attach_map_val]
  · intro c hx hcs
    exact h ⟨hx, c, hcs⟩

theorem compact_tag (e : Elem) : (compact e).tag = e.tag := by
  induction e using compact.induct with
  | case1 t a tl c h ih =>
    rw [compact_absorb t a tl c h, ih]
    rfl
  | case2 t a tl c h ih =>
    rw [compact_single t a tl c h]
    rfl
  | case3 t a x tl cs h ih =>
    rw [compact_other t a x tl cs (fun hp => h hp.2.choose hp.1 hp.2.choose_spec)]
    rfl

/-- C1: the normalization pass replaces a sole `p` child of a parent that has
no leading text by that `p`'s content — the `p`'s leading text becomes the
parent's leading text and the `p`'s children (with their trailing text) take
the `p`'s position in order — and leaves every element whose sole-`p`-child
precondition fails unchanged (its children are still normalized
individually, but the element's own tag, attributes, text and child list
structure are untouched). -/
theorem compact_collapses_sole_p :
    (∀ (t : String) (a : List (String × String)) (tl : Option String) (c : Elem),
        c.tag = "p" →
        compact (Elem.mk t a none tl [c]) = compact (Elem.mk t a c.text tl c.children))
  ∧ (∀ (t : String) (a : List (String × String)) (x tl : Option String) (cs : List Elem),
        ¬ (x = none ∧ ∃ c, cs = [c] ∧ c.tag = "p") →
        compact (Elem.mk t a x tl cs) = Elem.mk t a x tl (cs.map compact)) := by
  constructor
  · intro t a tl c h
    exact compact_absorb t a tl c h
  · intro t a x tl cs h
    by_cases hs : x = none ∧ ∃ c, cs = [c]
    · obtain ⟨hx, c, hcs⟩ := hs
      subst hx hcs
      have hc : ¬ c.tag = "p" := fun hp => h ⟨rfl, c, rfl, hp⟩
      rw [compact_single t a tl c hc]
      rfl
    · exact compact_other t a x tl cs hs

theorem compact_collapses_sole_p_witness :
    ((Elem.mk "p" [] (some "x") none [] : Elem).tag = "p"
      ∧ compact (Elem.mk "td" [] none none [Elem.mk "p" [] (some "x") none []])
          = compact (Elem.mk "td" [] (some "x") none []))
  ∧ (¬ ((some "y" : Option String) = none
          ∧ ∃ c, ([] : List Elem) = [c] ∧ c.tag = "p")
      ∧ compact (Elem.mk "td" [] (some "y") none []) = Elem.mk "td" [] (some "y") none []) := by
  refine ⟨⟨rfl, compact_collapses_sole_p.1 "td" [] none _ rfl⟩,
          ⟨by simp, ?_⟩⟩
  have h := compact_collapses_sole_p.2 "td" [] (some "y") none [] (by simp)
  simpa using h

/-- C2: running the normalization pass twice yields the same tree as running
it once. -/
theorem compact_idempotent (e : Elem) : compact (compact e) = compact e := by
  induction e using compact.induct with
  | case1 t a tl c h ih =>
    rw [compact_absorb t a tl c h]
    exact ih
  | case2 t a tl c h ih =>
    have h2 : ¬ (compact c).tag = "p" := by rw [compact_tag]; exact h
    rw [compact_single t a tl c h, compact_single t a tl (compact c) h2, ih]
  | case3 t a x tl cs h ih =>
    have h1 : ¬ (x = none ∧ ∃ c, cs = [c]) :=
      fun hp => h hp.2.choose hp.1 hp.2.choose_spec
    have h2 : ¬ (x = none ∧ ∃ c, cs.map compact = [c]) := by
      rintro ⟨hx, c, hcs⟩
      rcases cs with _ | ⟨c1, _ | ⟨c2, r⟩⟩ <;> simp at hcs
      exact h c1 hx rfl
    rw [compact_other t a x tl cs h1, compact_other t a x tl (cs.map compact) h2,
        List.map_map]
    congr 1
    apply List.map_congr_left
    intro c hc
    exact ih ⟨c, hc⟩

/-!
Traversal context.  `visit_document` (src 145-157) creates the skeleton
`html / (head, body) / article`, sets `self.el = [self.article]`, adds the
generator meta element to the head and then the style element.  `depart`
(src 165-166) replaces the top of `self.el` by `self.cur_el().getparent()`.
We address elements of the output tree by their child-index path from the
`html` root, so lxml's `getparent` drops the last step of the path and
returns `None` at the root.  A stack entry is `Option`al because
`getparent`'s result (possibly `None`) is stored back onto the stack.
`depart` fails with an IndexError when the stack is empty (`self.el[-1]`)
and with an AttributeError when the current entry is `None`
(`None.getparent()`); otherwise it totally succeeds.
-/

def visit_document_tree : Elem :=
  Elem.mk "html" [] none none
    [Elem.mk "head" []
      (some "") none
      [Elem.mk "meta"
        [("name", "generator"), ("content", "Docutils: http://docutils.sourceforge.net/")]
        none none [],
       Elem.mk "style" [("type", "text/css")] (some "helper_css") none []],
     Elem.mk "body" [] none none
      [Elem.mk "article" [("class", "docutils")] none none []]]

def articlePath : List Nat := [1, 0]

def bodyPath : List Nat := [1]

def visit_document_el : List (Option (List Nat)) := [some articlePath]

def getparent : List Nat → Option (List Nat)
  | [] => none
  | p => some p.dropLast

def depart (el : List (Option (List Nat))) : Except String (List (Option (List Nat))) :=
  match el.getLast? with
  | none => Except.error "IndexError"
  | some none => Except.error "AttributeError"
  | some (some p) => Except.ok (el.dropLast ++ [getparent p])

/-- C3 counterexample: with only the root insertion point (the `article`
element pushed by `visit_document`) on the context stack, `depart` does not
fail fatally — it succeeds, and the resulting current insertion point is the
`article`'s parent, the `body` element: a usable state. -/
theorem depart_root_counterexample :
    depart visit_document_el = Except.ok [some bodyPath]
      ∧ (depart visit_document_el).isOk = true := by
  constructor <;> rfl

/-- C3 (amended): invoking `depart` with only the root insertion point on
the context stack does not fail; it replaces the stack top by that element's
parent in the output tree (the `body` element for the initial `article`
stack, and `None` when the current element is the `html` tree root itself).
`depart` fails only when the stack is empty (IndexError on `self.el[-1]`) or
the current insertion point is already `None` (AttributeError on
`None.getparent()`). -/
theorem depart_root_amended :
    depart [some articlePath] = Except.ok [some bodyPath]
  ∧ depart [some []] = Except.ok [none]
  ∧ depart [] = Except.error "IndexError"
  ∧ (∀ st, depart (st ++ [none]) = Except.error "AttributeError") := by
  refine ⟨rfl, rfl, rfl, ?_⟩
  intro st
  simp [depart]

/-!
Metadata date field.  `date_string_parse` (src 67-74) is the opaque
date-parsing collaborator: it returns an ISO-8601 string or raises
ValueError (also when the dateutil library is absent); we model it as a
function argument of type `String → Option String`.  `visit_date`
(src 240-248) pushes the docinfo data cell prepared by `prep_docinfo`
(src 229-232), pushes a `time` sub-element, and sets its `datetime`
attribute only when the collaborator succeeds on the field's raw text;
the ValueError branch is caught locally and ignored.
-/

def visit_date_time (date_string_parse : String → Option String) (raw : String) : Elem :=
  match date_string_parse raw with
  | some iso_date => Elem.mk "time" [("datetime", iso_date)] none none []
  | none => Elem.mk "time" [] none none []

def visit_date (date_string_parse : String → Option String) (raw : String) : Elem :=
  Elem.mk "tr" [] none none
    [Elem.mk "th" [] (some "Date") none [],
     Elem.mk "td" [("itemprop", "date")] none none
       [visit_date_time date_string_parse raw]]

/-- C4: when the date-parsing collaborator succeeds the pushed `time`
sub-element carries a `datetime` attribute equal to the returned ISO-8601
string; when it fails the failure is caught at the field boundary and the
sub-element carries no `datetime` attribute; the human-readable text later
appended to the sub-element is the same in both cases; and the sub-element
sits inside the field's data cell either way. -/
theorem visit_date_datetime :
    (∀ (parse : String → Option String) (raw iso : String), parse raw = some iso →
        (visit_date_time parse raw).attrs = [("datetime", iso)])
  ∧ (∀ (parse : String → Option String) (raw : String), parse raw = none →
        (visit_date_time parse raw).attrs = [])
  ∧ (∀ (parse parse' : String → Option String) (raw s : String),
        (add_text (visit_date_time parse raw) s).text = some s
        ∧ (add_text (visit_date_time parse raw) s).text
            = (add_text (visit_date_time parse' raw) s).text)
  ∧ (∀ (parse : String → Option String) (raw : String),
        (visit_date parse raw).children
          = [Elem.mk "th" [] (some "Date") none [],
             Elem.mk "td" [("itemprop", "date")] none none
               [visit_date_time parse raw]]) := by
  refine ⟨?_, ?_, ?_, ?_⟩
  · intro parse raw iso h
    simp [visit_date_time, h, Elem.attrs]
  · intro parse raw h
    simp [visit_date_time, h, Elem.attrs]
  · intro parse parse' raw s
    constructor <;>
      rcases h : parse raw with _ | iso <;>
      rcases h' : parse' raw with _ | iso' <;>
      simp [visit_date_time, add_text, Elem.text, h, h']
  · intro parse raw
    rfl

theorem visit_date_datetime_witness :
    ((fun s => if s = "2009-10-05" then some "2009-10-05T00:00:00" else none) "2009-10-05"
        = some "2009-10-05T00:00:00"
      ∧ (visit_date_time
          (fun s => if s = "2009-10-05" then some "2009-10-05T00:00:00" else none)
          "2009-10-05").attrs = [("datetime", "2009-10-05T00:00:00")])
  ∧ ((fun (_ : String) => (none : Option String)) "2009-10-05" = none
      ∧ (visit_date_time (fun _ => none) "2009-10-05").attrs = []) :=
  ⟨⟨by decide, visit_date_datetime.1 _ "2009-10-05" "2009-10-05T00:00:00" (by decide)⟩,
   ⟨rfl, visit_date_datetime.2.1 _ "2009-10-05" rfl⟩⟩

/-!
Table cells.  `visit_entry` (src 266-279) pushes a `th` when `self.in_thead`
is `True`, and a `td` when it is `False` or was never set (the `try` around
the flag read turns the AttributeError of an unset flag into the `td`
branch).  The row span is `morerows + 1` and the column span is
`morecols + 1` (attributes defaulting to 0), and each span attribute is set
only when the computed span exceeds 1.
-/

def visit_entry (in_thead : Option Bool) (morerows morecols : Option Nat) : Elem :=
  let tagName : String :=
    match in_thead with
    | some b => if b then "th" else "td"
    | none => "td"
  let rowspan := morerows.getD 0 + 1
  let colspan := morecols.getD 0 + 1
  Elem.mk tagName
    ((if rowspan > 1 then [("rowspan", toString rowspan)] else [])
      ++ (if colspan > 1 then [("colspan", toString colspan)] else []))
    none none []

/-- C5: a table entry is a `th` exactly when the in-header-row flag is true
and a `td` when it is false or unset; its spans are the declared extra
rows/columns plus one; a span attribute appears, as the decimal string of
the span, exactly when the span exceeds 1; a default entry carries neither
attribute and an entry declaring 2 extra rows carries rowspan "3". -/
theorem visit_entry_spans :
    (∀ mr mc, (visit_entry (some true) mr mc).tag = "th")
  ∧ (∀ mr mc, (visit_entry (some false) mr mc).tag = "td"
        ∧ (visit_entry none mr mc).tag = "td")
  ∧ (∀ f mr mc v, ("rowspan", v) ∈ (visit_entry f mr mc).attrs
        ↔ (mr.getD 0 + 1 > 1 ∧ v = toString (mr.getD 0 + 1)))
  ∧ (∀ f mr mc v, ("colspan", v) ∈ (visit_entry f mr mc).attrs
        ↔ (mc.getD 0 + 1 > 1 ∧ v = toString (mc.getD 0 + 1)))
  ∧ (∀ f, (visit_entry f none none).attrs = [])
  ∧ (∀ f, ("rowspan", "3") ∈ (visit_entry f (some 2) none).attrs) := by
  refine ⟨fun mr mc => rfl, fun mr mc => ⟨rfl, rfl⟩, ?_, ?_, ?_, ?_⟩
  · intro f mr mc v
    simp only [visit_entry, Elem.attrs, List.mem_append]
    split_ifs with h1 h2 h2 <;>
      simp_all [Prod.ext_iff]
  · intro f mr mc v
    simp only [visit_entry, Elem.attrs, List.mem_append]
    split_ifs with h1 h2 h2 <;>
      simp_all [Prod.ext_iff]
  · intro f
    rcases f with _ | b
    · rfl
    · rcases b <;> rfl
  · intro f
    rcases f with _ | b
    · simp [visit_entry, Elem.attrs]
      decide
    · rcases b <;> simp [visit_entry, Elem.attrs] <;> decide

/-!
Enumerated lists.  `visit_enumerated_list` (src 309-319) pushes an `ol` and
looks the node's `enumtype` attribute up in a fixed dict mapping `arabic` to
`None` (no style attribute) and the four other enumeration types to CSS
list-style names; a missing key is a KeyError.  When the lookup yields a
style name, the `ol` gets a `style` attribute `list-style: <name>;`.
-/

def html_list_style (enumtype : String) : Option (Option String) :=
  if enumtype = "arabic" then some none
  else if enumtype = "loweralpha" then some (some "lower-alpha")
  else if enumtype = "upperalpha" then some (some "upper-alpha")
  else if enumtype = "lowerroman" then some (some "lower-roman")
  else if enumtype = "upperroman" then some (some "upper-roman")
  else none

def visit_enumerated_list (enumtype : String) : Except String Elem :=
  match html_list_style enumtype with
  | none => Except.error "KeyError"
  | some st =>
    Except.ok (Elem.mk "ol"
      (match st with
       | some s => [("style", "list-style: " ++ s ++ ";")]
       | none => [])
      none none [])

/-- C7: an arabic enumerated list gets an `ol` with no style attribute, and
each of the four non-arabic enumeration types gets an `ol` whose style
attribute holds a distinct, stable list-style string. -/
theorem visit_enumerated_list_styles :
    visit_enumerated_list "arabic" = Except.ok (Elem.mk "ol" [] none none [])
  ∧ visit_enumerated_list "loweralpha"
      = Except.ok (Elem.mk "ol" [("style", "list-style: lower-alpha;")] none none [])
  ∧ visit_enumerated_list "upperalpha"
      = Except.ok (Elem.mk "ol" [("style", "list-style: upper-alpha;")] none none [])
  ∧ visit_enumerated_list "lowerroman"
      = Except.ok (Elem.mk "ol" [("style", "list-style: lower-roman;")] none none [])
  ∧ visit_enumerated_list "upperroman"
      = Except.ok (Elem.mk "ol" [("style", "list-style: upper-roman;")] none none [])
  ∧ ("list-style: lower-alpha;" : String) ≠ "list-style: upper-alpha;"
  ∧ ("list-style: lower-alpha;" : String) ≠ "list-style: lower-roman;"
  ∧ ("list-style: lower-alpha;" : String) ≠ "list-style: upper-roman;"
  ∧ ("list-style: upper-alpha;" : String) ≠ "list-style: lower-roman;"
  ∧ ("list-style: upper-alpha;" : String) ≠ "list-style: upper-roman;"
  ∧ ("list-style: lower-roman;" : String) ≠ "list-style: upper-roman;" := by
  refine ⟨rfl, rfl, rfl, rfl, rfl, ?_, ?_, ?_, ?_, ?_, ?_⟩ <;> decide

/-!
Classed divs.  `classy_elements` (src 405) is the Python *list* `["topic"]`,
and `visit_rst_name_classy` (src 408-409) subscripts it with the node's
class name: `self.classy_elements[node.__class__.__name__]`.  Subscripting a
Python list with a string raises `TypeError: list indices must be integers`,
so the visit method always fails before pushing anything.  We model Python
list subscription over both index kinds.
-/

inductive PyIndex where
  | int (i : Int)
  | str (s : String)

def pyListSubscript (l : List String) : PyIndex → Except String String
  | .int i =>
    let j : Int := if i < 0 then i + l.length else i
    if h : 0 ≤ j ∧ j.toNat < l.length then Except.ok (l.get ⟨j.toNat, h.2⟩)
    else Except.error "IndexError"
  | .str _ => Except.error "TypeError: list indices must be integers, not str"

def classy_elements : List String := ["topic"]

def visit_rst_name_classy (nodeClassName : String) : Except String Elem :=
  (pyListSubscript classy_elements (PyIndex.str nodeClassName)).map fun c =>
    Elem.mk "div" [("class", c)] none none []

/-- C8: visiting a `topic` node does not push a `div` with a class
attribute — it raises a TypeError, because `classy_elements` is a list and
is subscripted with the node's class name string. -/
theorem visit_topic_type_error :
    visit_rst_name_classy "topic"
      = Except.error "TypeError: list indices must be integers, not str" := rfl

/-!
Block quotes.  `visit_block_quote` (src 295-297) pushes a `blockquote` and an
inner `section` body container; `depart_block_quote` (src 298-301) inspects
`self.cur_el()[-1]` — the last child of the current insertion point — and
performs two departs when it is not a `cite` (no attribution was seen) and
one otherwise.  In lxml, indexing a childless element with `[-1]` raises
IndexError.  We model the inspection and return the number of departs.
-/

def depart_block_quote (cur : Elem) : Except String Nat :=
  match cur.children.getLast? with
  | none => Except.error "IndexError"
  | some lastc => if lastc.tag = "cite" then Except.ok 1 else Except.ok 2

/-- C10: leaving a block quote whose current insertion point has no child
elements raises an IndexError from the `cur_el()[-1]` inspection, aborting
the translation instead of producing an empty quotation wrapper. -/
theorem depart_block_quote_empty :
    ∀ (t : String) (a : List (String × String)) (x tl : Option String),
      depart_block_quote (Elem.mk t a x tl []) = Except.error "IndexError" :=
  fun _ _ _ _ => rfl

/-!
Simple elements and table-driven method installation.  `Tag` (src 354-358)
bundles an output tag name, an optional single CSS class and an attribute
renaming map.  `simple_elements` (src 360-385) is the declarative table;
after the class body runs, the module-level loop (src 401-403) rebinds
`visit_<name>` on the translator class to `visit_rst_name_simple` for every
key of the table — including `image`, whose hand-written `visit_image`
(src 284-288, which reads `node.attributes['uri']` unconditionally) is
thereby replaced — and the second loop (src 410-412) rebinds the classy
names.  `visit_rst_name_simple` (src 391-399) pushes the table's tag, sets
the class when present, and copies each renamed attribute only when the
source attribute is present and truthy (a missing or empty string attribute
is not copied).
-/

structure Tag where
  html_tag_name : String
  classes : Option String
  attribute_map : List (String × String)
deriving DecidableEq

def simple_elements : List (String × Tag) :=
  [("paragraph",        Tag.mk "p"          none                 []),
   ("abbreviation",     Tag.mk "abbr"       none                 []),
   ("acronym",          Tag.mk "acronym"    none                 []),
   ("emphasis",         Tag.mk "em"         none                 []),
   ("strong",           Tag.mk "strong"     none                 []),
   ("table",            Tag.mk "table"      none                 []),
   ("tgroup",           Tag.mk "tgroup"     none                 []),
   ("row",              Tag.mk "tr"         none                 []),
   ("tbody",            Tag.mk "tbody"      none                 []),
   ("image",            Tag.mk "img"        none                 [("uri", "src"), ("alt", "alt")]),
   ("figure",           Tag.mk "figure"     none                 []),
   ("caption",          Tag.mk "figcaption" none                 []),
   ("transition",       Tag.mk "hr"         none                 []),
   ("definition_list",  Tag.mk "dl"         none                 []),
   ("term",             Tag.mk "dt"         none                 []),
   ("definition",       Tag.mk "dd"         none                 []),
   ("literal_block",    Tag.mk "pre"        none                 []),
   ("bullet_list",      Tag.mk "ul"         none                 []),
   ("list_item",        Tag.mk "li"         none                 []),
   ("option_list",      Tag.mk "table"      (some "option-list") []),
   ("option_list_item", Tag.mk "tr"         none                 []),
   ("option",           Tag.mk "span"       none                 []),
   ("option_string",    Tag.mk "span"       (some "option")      []),
   ("description",      Tag.mk "td"         none                 [])]

def assoc_get {α : Type} (d : List (String × α)) (k : String) : Option α :=
  match d with
  | [] => none
  | (k', v) :: rest => if k' = k then some v else assoc_get rest k

def visit_rst_name_simple (t : Tag) (nodeAttrs : List (String × String)) : Elem :=
  let classAttrs := match t.classes with
    | some c => [("class", c)]
    | none => []
  let copied := t.attribute_map.filterMap fun kv =>
    match assoc_get nodeAttrs kv.1 with
    | some a => if a = "" then none else some (kv.2, a)
    | none => none
  Elem.mk t.html_tag_name (classAttrs ++ copied) none none []

def visit_image_handwritten (nodeAttrs : List (String × String)) : Except String Elem :=
  match assoc_get nodeAttrs "uri" with
  | some u => Except.ok (Elem.mk "img" [("src", u)] none none [])
  | none => Except.error "KeyError"

inductive PyMethod where
  | handwritten_image
  | simple
  | classy
  | classBody (name : String)
deriving DecidableEq

def setattr (tbl : String → PyMethod) (k : String) (m : PyMethod) : String → PyMethod :=
  fun n => if n = k then m else tbl n

def classBodyVisitTable : String → PyMethod :=
  fun n => if n = "image" then PyMethod.handwritten_image else PyMethod.classBody n

def finalVisitTable : String → PyMethod :=
  let afterSimple := (simple_elements.map Prod.fst).foldl
    (fun tbl k => setattr tbl k PyMethod.simple) classBodyVisitTable
  classy_elements.foldl (fun tbl k => setattr tbl k PyMethod.classy) afterSimple

def imageTag : Tag := Tag.mk "img" none [("uri", "src"), ("alt", "alt")]

/-- C9: after the module-level installation loop, the visit method for
`image` is the table-driven simple visitor, not the hand-written
`visit_image`; the emitted `img` carries a `src` attribute (copied from the
node's `uri`) exactly when `uri` is present and non-empty, and likewise
`alt`; so a missing or empty `uri` yields an `img` with no `src` attribute
rather than the KeyError the hand-written method would raise. -/
theorem image_visit_installed :
    finalVisitTable "image" = PyMethod.simple
  ∧ assoc_get simple_elements "image" = some imageTag
  ∧ (∀ na, (visit_rst_name_simple imageTag na).tag = "img")
  ∧ (∀ na v, ("src", v) ∈ (visit_rst_name_simple imageTag na).attrs
      ↔ (assoc_get na "uri" = some v ∧ v ≠ ""))
  ∧ (∀ na v, ("alt", v) ∈ (visit_rst_name_simple imageTag na).attrs
      ↔ (assoc_get na "alt" = some v ∧ v ≠ ""))
  ∧ visit_image_handwritten [] = Except.error "KeyError" := by
  refine ⟨by decide, by decide, fun na => rfl, ?_, ?_, rfl⟩
  · intro na v
    simp only [visit_rst_name_simple, imageTag, Elem.attrs, List.filterMap, List.nil_append]
    rcases hu : assoc_get na "uri" with _ | u <;>
      rcases ha : assoc_get na "alt" with _ | a <;>
        simp [hu, ha, Prod.ext_iff] <;>
          split_ifs <;> simp_all [Prod.ext_iff] <;> aesop
  · intro na v
    simp only [visit_rst_name_simple, imageTag, Elem.attrs, List.filterMap, List.nil_append]
    rcases hu : assoc_get na "uri" with _ | u <;>
      rcases ha : assoc_get na "alt" with _ | a <;>
        simp [hu, ha, Prod.ext_iff] <;>
          split_ifs <;> simp_all [Prod.ext_iff] <;> aesop

/-!
Heading depth.  `visit_title` (src 194-202) initializes `self.level` to 1 on
the first title seen (the counter starts unset; reading it raises
AttributeError, which the `try` turns into the initialization branch) and
increments it on every later title, then emits a heading tagged
`"h" + str(self.level)`.  `depart_section` (src 213-215) decrements the
counter and `depart_section` on an unset counter is an uncaught
AttributeError.  We model the source tree shape relevant to the counter —
titles, sections and level-neutral other nodes — and the walk as a function
from the optional counter value to the resulting counter plus a trace of
counter mutations: `(true, v)` records a title setting the counter to `v`
(and emitting a heading at level `v`), `(false, v)` records a section leave
decrementing it to `v`.  `none` as the walk's result models the fatal
AttributeError.  The structural contract is that every section consists of
its own title followed by well-formed body items.
-/

inductive SNode where
  | title
  | leaf
  | section (body : List SNode)

def visit_title_level : Option Int → Int
  | none => 1
  | some n => n + 1

mutual
def walkN : Option Int → SNode → Option (Option Int × List (Bool × Int))
  | lvl, .title => some (some (visit_title_level lvl), [(true, visit_title_level lvl)])
  | lvl, .leaf => some (lvl, [])
  | lvl, .section body =>
    match walkL lvl body with
    | none => none
    | some (none, _) => none
    | some (some n, tr) => some (some (n - 1), tr ++ [(false, n - 1)])
def walkL : Option Int → List SNode → Option (Option Int × List (Bool × Int))
  | lvl, [] => some (lvl, [])
  | lvl, x :: xs =>
    match walkN lvl x with
    | none => none
    | some (l, tr) =>
      match walkL l xs with
      | none => none
      | some (l2, tr2) => some (l2, tr ++ tr2)
end

mutual
def wfB : SNode → Bool
  | .title => false
  | .leaf => true
  | .section (.title :: rest) => wfL rest
  | .section _ => false
def wfL : List SNode → Bool
  | [] => true
  | x :: xs => wfB x && wfL xs
end

mutual
theorem walkN_wf (n : SNode) (h : wfB n = true) (v : Int) :
    ∃ tr, walkN (some v) n = some (some v, tr) ∧ ∀ p ∈ tr, v ≤ p.2 := by
  match n with
  | .leaf => exact ⟨[], rfl, by simp⟩
  | .title => simp [wfB] at h
  | .section [] => simp [wfB] at h
  | .section (.leaf :: rest) => simp [wfB] at h
  | .section (.section b :: rest) => simp [wfB] at h
  | .section (.title :: rest) =>
    have h' : wfL rest = true := by simpa [wfB] using h
    obtain ⟨tr, htr, hge⟩ := walkL_wf rest h' (v + 1)
    refine ⟨(true, v + 1) :: (tr ++ [(false, v)]), ?_, ?_⟩
    · simp [walkN, walkL, visit_title_level, htr]
    · intro p hp
      rcases List.mem_cons.mp hp with h1 | h1
      · subst h1; simp
      · rcases List.mem_append.mp h1 with h2 | h2
        · have := hge p h2; omega
        · simp at h2; subst h2; simp
theorem walkL_wf (l : List SNode) (h : wfL l = true) (v : Int) :
    ∃ tr, walkL (some v) l = some (some v, tr) ∧ ∀ p ∈ tr, v ≤ p.2 := by
  match l with
  | [] => exact ⟨[], rfl, by simp⟩
  | x :: xs =>
    have hx : wfB x = true := by
      have := h; simp [wfL, Bool.and_eq_true] at this; exact this.1
    have hxs : wfL xs = true := by
      have := h; simp [wfL, Bool.and_eq_true] at this; exact this.2
    obtain ⟨tr1, h1, g1⟩ := walkN_wf x hx v
    obtain ⟨tr2, h2, g2⟩ := walkL_wf xs hxs v
    refine ⟨tr1 ++ tr2, ?_, ?_⟩
    · simp [walkL, h1, h2]
    · intro p hp
      rcases List.mem_append.mp hp with h3 | h3
      · exact g1 p h3
      · exact g2 p h3
end

theorem visit_title_level_getD (lvl : Option Int) :
    visit_title_level lvl = lvl.getD 0 + 1 := by
  rcases lvl with _ | n <;> simp [visit_title_level]

theorem walkN_section (rest : List SNode) (h : wfL rest = true) (lvl : Option Int) :
    ∃ tr, walkN lvl (SNode.section (SNode.title :: rest))
        = some (some (lvl.getD 0), (true, lvl.getD 0 + 1) :: (tr ++ [(false, lvl.getD 0)]))
      ∧ ∀ p ∈ tr, lvl.getD 0 + 1 ≤ p.2 := by
  obtain ⟨tr, htr, hge⟩ := walkL_wf rest h (lvl.getD 0 + 1)
  refine ⟨tr, ?_, hge⟩
  simp [walkN, walkL, visit_title_level_getD, htr]

theorem walkL_wf_gen (l : List SNode) (h : wfL l = true) (lvl : Option Int) :
    ∃ lvl2 tr, walkL lvl l = some (lvl2, tr) ∧ lvl2.getD 0 = lvl.getD 0
      ∧ ∀ p ∈ tr, lvl.getD 0 ≤ p.2 := by
  induction l generalizing lvl with
  | nil => exact ⟨lvl, [], rfl, rfl, by simp⟩
  | cons x xs ih =>
    have hx : wfB x = true := by
      have := h; simp [wfL, Bool.and_eq_true] at this; exact this.1
    have hxs : wfL xs = true := by
      have := h; simp [wfL, Bool.and_eq_true] at this; exact this.2
    match x with
    | .title => simp [wfB] at hx
    | .leaf =>
      obtain ⟨lvl2, tr, h1, h2, h3⟩ := ih hxs lvl
      exact ⟨lvl2, tr, by simp [walkL, walkN, h1], h2, h3⟩
    | .section body =>
      match body with
      | [] => simp [wfB] at hx
      | .leaf :: rest => simp [wfB] at hx
      | .section b :: rest => simp [wfB] at hx
      | .title :: rest =>
        have hrest : wfL rest = true := by simpa [wfB] using hx
        obtain ⟨tr1, h1, g1⟩ := walkN_section rest hrest lvl
        obtain ⟨lvl2, tr2, h2, g2, g3⟩ := ih hxs (some (lvl.getD 0))
        refine ⟨lvl2, ((true, lvl.getD 0 + 1) :: (tr1 ++ [(false, lvl.getD 0)])) ++ tr2,
          ?_, by simpa using g2, ?_⟩
        · simp [walkL, h1, h2]
        · intro p hp
          rcases List.mem_append.mp hp with hp1 | hp1
          · rcases List.mem_cons.mp hp1 with hc | hc
            · subst hc; simp
            · rcases List.mem_append.mp hc with hc2 | hc2
              · have := g1 p hc2; omega
              · simp at hc2; subst hc2; simp
          · have := g3 p hp1; simp at this; omega

/-- C6: for traversals of source trees in which every section carries its
own title (the structural contract), the heading-depth counter is
initialized to 1 on the first title, set to one more than its value on each
subsequent title, decremented on each section leave, never becomes negative
at any mutation, and after leaving a section it holds the value the counter
had before entering that section (the unset starting state counting as 0);
in particular the titles of two sibling top-level sections are both emitted
at heading level 1. -/
theorem heading_depth_invariant :
    visit_title_level none = 1
  ∧ (∀ n : Int, visit_title_level (some n) = n + 1)
  ∧ (∀ items, wfL items = true →
      ∃ lvl2 tr, walkL none items = some (lvl2, tr)
        ∧ lvl2.getD 0 = 0 ∧ ∀ p ∈ tr, 0 ≤ p.2)
  ∧ (∀ rest lvl, wfL rest = true →
      ∃ tr, walkN lvl (SNode.section (SNode.title :: rest))
          = some (some (lvl.getD 0), tr))
  ∧ (∀ r1 r2, wfL r1 = true → wfL r2 = true →
      ∃ tr1 tr2,
        walkL none [SNode.section (SNode.title :: r1), SNode.section (SNode.title :: r2)]
          = some (some 0, ((true, 1) :: (tr1 ++ [(false, 0)]))
              ++ ((true, 1) :: (tr2 ++ [(false, 0)])))) := by
  refine ⟨rfl, fun n => rfl, ?_, ?_, ?_⟩
  · intro items h
    obtain ⟨lvl2, tr, e, g2, g3⟩ := walkL_wf_gen items h none
    exact ⟨lvl2, tr, e, by simpa using g2, by simpa using g3⟩
  · intro rest lvl h
    obtain ⟨tr, e, _⟩ := walkN_section rest h lvl
    exact ⟨_, e⟩
  · intro r1 r2 h1 h2
    obtain ⟨tr1, e1, _⟩ := walkN_section r1 h1 none
    obtain ⟨tr2, e2, _⟩ := walkN_section r2 h2 (some 0)
    simp at e1 e2
    refine ⟨tr1, tr2, ?_⟩
    simp [walkL, e1, e2]

theorem heading_depth_invariant_witness :
    wfL [SNode.section [SNode.title], SNode.section [SNode.title]] = true
  ∧ (∃ lvl2 tr,
      walkL none [SNode.section [SNode.title], SNode.section [SNode.title]]
        = some (lvl2, tr) ∧ lvl2.getD 0 = 0 ∧ ∀ p ∈ tr, 0 ≤ p.2) :=
  ⟨rfl, heading_depth_invariant.2.2.1 _ rfl⟩
